import Mathlib

/-!
Verification of the SPSC lock-free ring-buffer queue from
`exercises/07_lockfree_queue/07_lockfree_queue.c` and its copy in
`exercises/08_summary/08_summary.c` (variant C).

The queue state is embedded shallowly: the C struct

```
typedef struct {
    int buffer[QUEUE_SIZE];
    atomic_size_t head;
    atomic_size_t tail;
} spsc_queue_t;
```

becomes a Lean structure with the buffer as a total function `Nat → Int`
(modelling the array as memory; the operations only ever touch indices
below `QUEUE_SIZE`, which is proved below), and the two `size_t` cursors
as `Nat`.  The operations are translated line by line from the C source;
in particular the bitmask `& MASK` with `MASK = QUEUE_SIZE - 1` is kept
as `&&&` on `Nat`.  All definitions are parametric in the capacity `N`
(the C macro `QUEUE_SIZE`); the source fixes `QUEUE_SIZE = 1024` in both
files, and the spec's concrete scenario uses capacity 8.
-/

/-- The C macro `QUEUE_SIZE` from `07_lockfree_queue.c` (and `08_summary.c`). -/
def QUEUE_SIZE : Nat := 1024

/-- Shallow embedding of `spsc_queue_t`: ring buffer plus the two cursors.
The buffer is a total function on `Nat`; only indices `< N` are ever used. -/
structure SpscQueue where
  buffer : Nat → Int
  head : Nat
  tail : Nat

/-- `queue_init`: stores 0 into both cursors of an existing queue object
(the C function mutates an allocated struct; the buffer is left as is). -/
def queue_init (q : SpscQueue) : SpscQueue :=
  { q with head := 0, tail := 0 }

/-- `queue_enqueue` from `07_lockfree_queue.c` (capacity `N`, mask `N - 1`):
```
size_t head = atomic_load_explicit(&q->head, memory_order_relaxed);
size_t next_head = (head + 1) & MASK;
size_t tail = atomic_load_explicit(&q->tail, memory_order_acquire);
if (next_head == tail) { return false; }
q->buffer[head] = value;
atomic_store_explicit(&q->head, next_head, memory_order_release);
return true;
```
Returns the `bool` result together with the successor state. -/
def queue_enqueue (N : Nat) (q : SpscQueue) (value : Int) : Bool × SpscQueue :=
  let head := q.head
  let next_head := (head + 1) &&& (N - 1)
  let tail := q.tail
  if next_head = tail then
    (false, q)
  else
    (true, { q with
               buffer := fun i => if i = head then value else q.buffer i,
               head := next_head })

/-- `queue_dequeue` from `07_lockfree_queue.c`:
```
size_t tail = atomic_load_explicit(&q->tail, memory_order_relaxed);
size_t head = atomic_load_explicit(&q->head, memory_order_acquire);
if (head == tail) { return false; }
*value = q->buffer[tail];
size_t next_tail = (tail + 1) & MASK;
atomic_store_explicit(&q->tail, next_tail, memory_order_release);
return true;
```
The `bool` result and out-parameter are combined into an `Option Int`. -/
def queue_dequeue (N : Nat) (q : SpscQueue) : Option Int × SpscQueue :=
  let tail := q.tail
  let head := q.head
  if head = tail then
    (none, q)
  else
    let value := q.buffer tail
    let next_tail := (tail + 1) &&& (N - 1)
    (some value, { q with tail := next_tail })

/-- An operation issued against the queue: an enqueue of a value, or a
dequeue.  Sequences of these model any single-producer/single-consumer
interleaving, since in the SPSC discipline each call runs to completion
atomically with respect to the other side's view of the state it owns. -/
inductive Op where
  | enq : Int → Op
  | deq : Op
deriving DecidableEq

/-- One operation step on the state (result discarded). -/
def step (N : Nat) (q : SpscQueue) : Op → SpscQueue
  | .enq v => (queue_enqueue N q v).2
  | .deq => (queue_dequeue N q).2

/-- Run a sequence of operations from state `q`. -/
def runOps (N : Nat) (q : SpscQueue) (ops : List Op) : SpscQueue :=
  ops.foldl (step N) q

/-- States reachable from a freshly initialised queue by some sequence of
enqueue/dequeue operations. -/
def Reachable (N : Nat) (q : SpscQueue) : Prop :=
  ∃ q₀ ops, runOps N (queue_init q₀) ops = q

/-- Number of live elements, `(head - tail) mod N` in `size_t` arithmetic
(for cursors `< N` this equals `(head + N - tail) % N` over `Nat`). -/
def queue_len (N : Nat) (q : SpscQueue) : Nat :=
  (q.head + N - q.tail) % N

/-- The live contents of the queue, oldest first: the `queue_len` values
starting at slot `tail`, wrapping modulo `N`. -/
def queue_contents (N : Nat) (q : SpscQueue) : List Int :=
  (List.range (queue_len N q)).map (fun i => q.buffer ((q.tail + i) % N))

/-- Run a sequence of operations, collecting the values successfully
enqueued, the values successfully dequeued (both oldest first), and the
final state. -/
def runTrace (N : Nat) (q : SpscQueue) : List Op → List Int × List Int × SpscQueue
  | [] => ([], [], q)
  | .enq v :: rest =>
      let r := queue_enqueue N q v
      let t := runTrace N r.2 rest
      (if r.1 then v :: t.1 else t.1, t.2.1, t.2.2)
  | .deq :: rest =>
      let r := queue_dequeue N q
      let t := runTrace N r.2 rest
      (t.1, (match r.1 with | some v => v :: t.2.1 | none => t.2.1), t.2.2)

/-- Run a sequence of operations, recording each call's result in order:
`Sum.inl b` for an enqueue returning `b`, `Sum.inr r` for a dequeue. -/
def runResults (N : Nat) (q : SpscQueue) : List Op → List (Bool ⊕ Option Int)
  | [] => []
  | .enq v :: rest =>
      Sum.inl (queue_enqueue N q v).1 ::
        runResults N (queue_enqueue N q v).2 rest
  | .deq :: rest =>
      Sum.inr (queue_dequeue N q).1 ::
        runResults N (queue_dequeue N q).2 rest

/-- 1023 enqueues followed by one dequeue: drives a fresh queue to the
state `head = 1023`, `tail = 1`, where the next successful enqueue wraps
the stored `head` cursor around to 0. -/
def c5ops : List Op := (List.replicate 1023 (0 : Int)).map Op.enq ++ [Op.deq]

/-- The concrete reachable state produced by `c5ops` from a fresh queue. -/
def c5state : SpscQueue := runOps 1024 (queue_init ⟨fun _ => 0, 0, 0⟩) c5ops

/- ### The copy of the queue in `08_summary.c` (variant C) -/

/-- `spsc_init` from `08_summary.c`: stores 0 into both cursors and
returns the `int` result 0. -/
def spsc_init (q : SpscQueue) : Int × SpscQueue :=
  (0, { q with head := 0, tail := 0 })

/-- `spsc_enqueue` from `08_summary.c` — textually the same `size_t` code
as `queue_enqueue` in `07_lockfree_queue.c`. -/
def spsc_enqueue (N : Nat) (q : SpscQueue) (value : Int) : Bool × SpscQueue :=
  let head := q.head
  let next_head := (head + 1) &&& (N - 1)
  let tail := q.tail
  if next_head = tail then
    (false, q)
  else
    (true, { q with
               buffer := fun i => if i = head then value else q.buffer i,
               head := next_head })

/-- Conversion of a `size_t` value to a C `int` local: 32-bit
two's-complement wrap (the usual implementation-defined behaviour). -/
def toInt32 (x : Nat) : Int :=
  if x % 4294967296 < 2147483648 then ((x % 4294967296 : Nat) : Int)
  else ((x % 4294967296 : Nat) : Int) - 4294967296

/-- `spsc_dequeue` from `08_summary.c`.  Unlike `queue_dequeue` it reads
the two cursors into `int` locals:
```
int tail = atomic_load_explicit(&q->tail, memory_order_relaxed);
int head = atomic_load_explicit(&q->head, memory_order_acquire);
if (head == tail) return false;
*value = q->buffer[tail];
int next_tail = (tail + 1) & MASK;
atomic_store_explicit(&q->tail, next_tail, memory_order_release);
return true;
```
The `size_t`→`int` loads are modelled by `toInt32`; the array index, the
`int` bit-and, and the `int`→`size_t` store are modelled through
`Int.toNat` on the non-negative values that actually occur. -/
def spsc_dequeue (N : Nat) (q : SpscQueue) : Option Int × SpscQueue :=
  let tail : Int := toInt32 q.tail
  let head : Int := toInt32 q.head
  if head = tail then
    (none, q)
  else
    let value := q.buffer tail.toNat
    let next_tail : Int := (((tail + 1).toNat &&& (N - 1) : Nat) : Int)
    (some value, { q with tail := next_tail.toNat })

/- ### Basic arithmetic about the bitmask -/

/-- `x & (QUEUE_SIZE - 1)` is reduction modulo `QUEUE_SIZE` (1024 = 2^10). -/
theorem and_mask_1024 (x : Nat) : x &&& 1023 = x % 1024 := by
  have h := Nat.and_pow_two_sub_one_eq_mod x 10
  norm_num at h
  simpa using h

/-- `x & 7` is reduction modulo 8. -/
theorem and_mask_8 (x : Nat) : x &&& 7 = x % 8 := by
  have h := Nat.and_pow_two_sub_one_eq_mod x 3
  norm_num at h
  simpa using h

/- ### Exact characterisations of the two operations at capacity 1024 -/

/-- Enqueue when the buffer is full leaves the state untouched. -/
theorem enqueue_full_eq (q : SpscQueue) (v : Int)
    (h : (q.head + 1) % 1024 = q.tail) :
    queue_enqueue 1024 q v = (false, q) := by
  simp [queue_enqueue, and_mask_1024, h]

/-- Enqueue when the buffer is not full writes the slot and advances `head`. -/
theorem enqueue_succ_eq (q : SpscQueue) (v : Int)
    (h : (q.head + 1) % 1024 ≠ q.tail) :
    queue_enqueue 1024 q v =
      (true, { q with buffer := fun i => if i = q.head then v else q.buffer i,
                      head := (q.head + 1) % 1024 }) := by
  simp [queue_enqueue, and_mask_1024, h]

/-- Dequeue on an empty buffer leaves the state untouched. -/
theorem dequeue_empty_eq (q : SpscQueue) (h : q.head = q.tail) :
    queue_dequeue 1024 q = (none, q) := by
  simp [queue_dequeue, h]

/-- Dequeue on a non-empty buffer reads slot `tail` and advances `tail`. -/
theorem dequeue_succ_eq (q : SpscQueue) (h : q.head ≠ q.tail) :
    queue_dequeue 1024 q =
      (some (q.buffer q.tail), { q with tail := (q.tail + 1) % 1024 }) := by
  simp [queue_dequeue, and_mask_1024, h]

/-- A single operation keeps both cursors below the capacity. -/
theorem step_bounds (q : SpscQueue) (hh : q.head < 1024) (ht : q.tail < 1024)
    (op : Op) : (step 1024 q op).head < 1024 ∧ (step 1024 q op).tail < 1024 := by
  cases op with
  | enq v =>
      by_cases h : (q.head + 1) % 1024 = q.tail
      · simp [step, enqueue_full_eq q v h, hh, ht]
      · simp [step, enqueue_succ_eq q v h, ht]
        omega
  | deq =>
      by_cases h : q.head = q.tail
      · simp [step, dequeue_empty_eq q h, hh, ht]
      · simp [step, dequeue_succ_eq q h, hh]
        omega

/-- Running any operation sequence keeps both cursors below the capacity. -/
theorem runOps_bounds (ops : List Op) : ∀ q : SpscQueue, q.head < 1024 →
    q.tail < 1024 →
    (runOps 1024 q ops).head < 1024 ∧ (runOps 1024 q ops).tail < 1024 := by
  induction ops with
  | nil => intro q hh ht; exact ⟨hh, ht⟩
  | cons op rest ih =>
      intro q hh ht
      have hb := step_bounds q hh ht op
      simpa [runOps] using ih (step 1024 q op) hb.1 hb.2

/-- Every reachable state has both cursors below the capacity. -/
theorem reachable_bounds (q : SpscQueue) (h : Reachable 1024 q) :
    q.head < 1024 ∧ q.tail < 1024 := by
  obtain ⟨q₀, ops, rfl⟩ := h
  exact runOps_bounds ops (queue_init q₀) (by simp [queue_init]) (by simp [queue_init])

/- ### How the operations act on the abstract contents -/

/-- A successful enqueue appends the value at the back of the contents. -/
theorem contents_enqueue (q : SpscQueue) (v : Int)
    (hh : q.head < 1024) (ht : q.tail < 1024)
    (hfull : (q.head + 1) % 1024 ≠ q.tail) :
    queue_contents 1024 (queue_enqueue 1024 q v).2 =
      queue_contents 1024 q ++ [v] := by
  rw [enqueue_succ_eq q v hfull]
  unfold queue_contents queue_len
  dsimp only
  have hlen : ((q.head + 1) % 1024 + 1024 - q.tail) % 1024 =
      (q.head + 1024 - q.tail) % 1024 + 1 := by omega
  rw [hlen, List.range_succ, List.map_append]
  congr 1
  · apply List.map_congr_left
    intro i hi
    simp only [List.mem_range] at hi
    have hne : (q.tail + i) % 1024 ≠ q.head := by omega
    simp [hne]
  · have hhit : (q.tail + (q.head + 1024 - q.tail) % 1024) % 1024 = q.head := by
      omega
    simp [hhit]

/-- A successful dequeue removes the front of the contents and returns it. -/
theorem contents_dequeue (q : SpscQueue)
    (hh : q.head < 1024) (ht : q.tail < 1024) (hne : q.head ≠ q.tail) :
    queue_contents 1024 q =
      q.buffer q.tail :: queue_contents 1024 (queue_dequeue 1024 q).2 := by
  rw [dequeue_succ_eq q hne]
  unfold queue_contents queue_len
  dsimp only
  have hlen : (q.head + 1024 - q.tail) % 1024 =
      (q.head + 1024 - (q.tail + 1) % 1024) % 1024 + 1 := by omega
  rw [hlen, List.range_succ_eq_map, List.map_cons, List.map_map]
  congr 1
  · have h0 : (q.tail + 0) % 1024 = q.tail := by omega
    rw [h0]
  · apply List.map_congr_left
    intro i hi
    simp only [Function.comp_apply]
    have hix : (q.tail + (i + 1)) % 1024 = ((q.tail + 1) % 1024 + i) % 1024 := by
      omega
    simp [hix]

/- ### The FIFO invariant -/

/-- Master invariant: along any operation sequence, the initial contents
followed by the successfully enqueued values equal the successfully
dequeued values followed by the final contents. -/
theorem trace_invariant (ops : List Op) : ∀ q : SpscQueue, q.head < 1024 →
    q.tail < 1024 →
    queue_contents 1024 q ++ (runTrace 1024 q ops).1 =
      (runTrace 1024 q ops).2.1 ++
        queue_contents 1024 (runTrace 1024 q ops).2.2 := by
  induction ops with
  | nil => intro q hh ht; simp [runTrace]
  | cons op rest ih =>
      intro q hh ht
      cases op with
      | enq v =>
          by_cases h : (q.head + 1) % 1024 = q.tail
          · simp only [runTrace, enqueue_full_eq q v h]
            simpa using ih q hh ht
          · have hstep := enqueue_succ_eq q v h
            have hq : (queue_enqueue 1024 q v).2.head < 1024 ∧
                (queue_enqueue 1024 q v).2.tail < 1024 := by
              rw [hstep]; exact ⟨Nat.mod_lt _ (by omega), ht⟩
            have hc := contents_enqueue q v hh ht h
            have hih := ih (queue_enqueue 1024 q v).2 hq.1 hq.2
            have hr : (queue_enqueue 1024 q v).1 = true := by rw [hstep]
            simp only [runTrace, hr, if_true]
            rw [hc] at hih
            simpa using hih
      | deq =>
          by_cases h : q.head = q.tail
          · simp only [runTrace, dequeue_empty_eq q h]
            simpa using ih q hh ht
          · have hstep := dequeue_succ_eq q h
            have hq : (queue_dequeue 1024 q).2.head < 1024 ∧
                (queue_dequeue 1024 q).2.tail < 1024 := by
              rw [hstep]; exact ⟨hh, Nat.mod_lt _ (by omega)⟩
            have hc := contents_dequeue q hh ht h
            have hih := ih (queue_dequeue 1024 q).2 hq.1 hq.2
            have hr : (queue_dequeue 1024 q).1 = some (q.buffer q.tail) := by
              rw [hstep]
            simp only [runTrace, hr]
            rw [hc]
            simp only [List.cons_append]
            rw [hih]

/-- The contents of a freshly initialised queue are empty. -/
theorem contents_init (q₀ : SpscQueue) :
    queue_contents 1024 (queue_init q₀) = [] := by
  simp [queue_contents, queue_len, queue_init]

/- ### Filling the queue from empty -/

/-- Enqueueing a list of values into a queue with `tail = 0` and room for
all of them: every enqueue succeeds, nothing is dequeued, and the final
cursors are `head + length` and `0`. -/
theorem enqueue_run (vs : List Int) : ∀ q : SpscQueue, q.tail = 0 →
    q.head + vs.length ≤ 1023 →
    (runTrace 1024 q (vs.map Op.enq)).1 = vs ∧
    (runTrace 1024 q (vs.map Op.enq)).2.1 = [] ∧
    (runTrace 1024 q (vs.map Op.enq)).2.2.head = q.head + vs.length ∧
    (runTrace 1024 q (vs.map Op.enq)).2.2.tail = 0 := by
  induction vs with
  | nil => intro q ht hroom; simp [runTrace, ht]
  | cons v vs ih =>
      intro q ht hroom
      have hne : (q.head + 1) % 1024 ≠ q.tail := by
        simp only [List.length_cons] at hroom
        omega
      have hstep := enqueue_succ_eq q v hne
      have hih := ih (queue_enqueue 1024 q v).2
        (by rw [hstep]; exact ht)
        (by rw [hstep]; simp only [List.length_cons] at hroom; simp; omega)
      simp only [List.map_cons, runTrace, hstep] at hih ⊢
      simp only [List.length_cons]
      refine ⟨by simp [hih.1], hih.2.1, ?_, hih.2.2.2⟩
      rw [hih.2.2.1]
      simp only [List.length_cons] at hroom
      omega

/-- The final state of `runTrace` is the `runOps` fold. -/
theorem runTrace_state (N : Nat) (ops : List Op) :
    ∀ q : SpscQueue, (runTrace N q ops).2.2 = runOps N q ops := by
  induction ops with
  | nil => intro q; rfl
  | cons op rest ih =>
      intro q
      cases op with
      | enq v => simpa [runTrace, runOps, step] using ih (queue_enqueue N q v).2
      | deq => simpa [runTrace, runOps, step] using ih (queue_dequeue N q).2

/-- The `c5ops` sequence ends in the state `head = 1023`, `tail = 1`. -/
theorem c5state_cursors : c5state.head = 1023 ∧ c5state.tail = 1 := by
  have hrun := enqueue_run (List.replicate 1023 (0 : Int))
    (queue_init ⟨fun _ => 0, 0, 0⟩) (by simp [queue_init])
    (by rw [List.length_replicate]; simp [queue_init])
  have hmid : runOps 1024 (queue_init ⟨fun _ => 0, 0, 0⟩)
      ((List.replicate 1023 (0 : Int)).map Op.enq) =
      (runTrace 1024 (queue_init ⟨fun _ => 0, 0, 0⟩)
        ((List.replicate 1023 (0 : Int)).map Op.enq)).2.2 :=
    (runTrace_state 1024 _ _).symm
  have hh : (runTrace 1024 (queue_init ⟨fun _ => 0, 0, 0⟩)
      ((List.replicate 1023 (0 : Int)).map Op.enq)).2.2.head = 1023 := by
    rw [hrun.2.2.1, List.length_replicate]; simp [queue_init]
  have ht : (runTrace 1024 (queue_init ⟨fun _ => 0, 0, 0⟩)
      ((List.replicate 1023 (0 : Int)).map Op.enq)).2.2.tail = 0 := hrun.2.2.2
  have hne : (runTrace 1024 (queue_init ⟨fun _ => 0, 0, 0⟩)
      ((List.replicate 1023 (0 : Int)).map Op.enq)).2.2.head ≠
      (runTrace 1024 (queue_init ⟨fun _ => 0, 0, 0⟩)
        ((List.replicate 1023 (0 : Int)).map Op.enq)).2.2.tail := by
    rw [hh, ht]; decide
  have hdeq := dequeue_succ_eq _ hne
  have hsplit : c5state = (queue_dequeue 1024
      (runTrace 1024 (queue_init ⟨fun _ => 0, 0, 0⟩)
        ((List.replicate 1023 (0 : Int)).map Op.enq)).2.2).2 := by
    have hc : c5state = runOps 1024
        (runOps 1024 (queue_init ⟨fun _ => 0, 0, 0⟩)
          ((List.replicate 1023 (0 : Int)).map Op.enq)) [Op.deq] := by
      unfold c5state c5ops runOps
      rw [List.foldl_append]
    rw [hc, hmid]
    rfl
  have hgen : ∀ X : SpscQueue, X.head = 1023 → X.tail = 0 →
      c5state = (queue_dequeue 1024 X).2 →
      c5state.head = 1023 ∧ c5state.tail = 1 := by
    intro X hXh hXt heq
    have hXne : X.head ≠ X.tail := by rw [hXh, hXt]; decide
    rw [heq, dequeue_succ_eq X hXne]
    exact ⟨hXh, by simp [hXt]⟩
  exact hgen _ hh ht hsplit

/- ### Claim theorems -/

/-- C1: for every sequence of enqueue/dequeue operations from a fresh
queue, the successfully enqueued values equal the successfully dequeued
values followed by the values still resident (oldest first); hence the
dequeued sequence is a prefix of the enqueued sequence — no reordering,
duplication or loss — and the two are equal once the queue is drained. -/
theorem C1_fifo_order (q₀ : SpscQueue) (ops : List Op) :
    (runTrace 1024 (queue_init q₀) ops).1 =
      (runTrace 1024 (queue_init q₀) ops).2.1 ++
        queue_contents 1024 (runTrace 1024 (queue_init q₀) ops).2.2 ∧
    (∃ rest, (runTrace 1024 (queue_init q₀) ops).2.1 ++ rest =
      (runTrace 1024 (queue_init q₀) ops).1) ∧
    (queue_contents 1024 (runTrace 1024 (queue_init q₀) ops).2.2 = [] →
      (runTrace 1024 (queue_init q₀) ops).1 =
        (runTrace 1024 (queue_init q₀) ops).2.1) := by
  have h := trace_invariant ops (queue_init q₀)
    (by simp [queue_init]) (by simp [queue_init])
  rw [contents_init, List.nil_append] at h
  refine ⟨h, ⟨queue_contents 1024 (runTrace 1024 (queue_init q₀) ops).2.2,
    h.symm⟩, ?_⟩
  intro hempty
  rw [h, hempty, List.append_nil]

/-- Witness for C1 at a concrete run that drains the queue. -/
theorem C1_fifo_order_witness :
    (runTrace 1024 (queue_init ⟨fun _ => 0, 0, 0⟩) [Op.enq 3, Op.deq]).1 =
      (runTrace 1024 (queue_init ⟨fun _ => 0, 0, 0⟩) [Op.enq 3, Op.deq]).2.1 :=
  (C1_fifo_order ⟨fun _ => 0, 0, 0⟩ [Op.enq 3, Op.deq]).2.2 (by decide)

/-- C2: enqueue fails (returning `false`, state unchanged) exactly when
`(head + 1) mod N = tail`; a reachable queue holds at most `N - 1`
elements; and after `N - 1` successful enqueues from a fresh queue the
next enqueue returns `false`. -/
theorem C2_enqueue_full_spec (q : SpscQueue) (v : Int) :
    ((queue_enqueue 1024 q v).1 = false ↔ (q.head + 1) % 1024 = q.tail) ∧
    ((q.head + 1) % 1024 = q.tail → queue_enqueue 1024 q v = (false, q)) ∧
    (Reachable 1024 q → queue_len 1024 q ≤ 1024 - 1) ∧
    (∀ (q₀ : SpscQueue) (vs : List Int), vs.length = 1024 - 1 →
      (runTrace 1024 (queue_init q₀) (vs.map Op.enq)).1 = vs ∧
      (queue_enqueue 1024
        (runTrace 1024 (queue_init q₀) (vs.map Op.enq)).2.2 v).1 = false) := by
  refine ⟨⟨?_, ?_⟩, ?_, ?_, ?_⟩
  · intro hf
    by_contra h
    rw [enqueue_succ_eq q v h] at hf
    simp at hf
  · intro h
    rw [enqueue_full_eq q v h]
  · intro h
    exact enqueue_full_eq q v h
  · intro _
    unfold queue_len
    have hlt : (q.head + 1024 - q.tail) % 1024 < 1024 :=
      Nat.mod_lt _ (by norm_num)
    omega
  · intro q₀ vs hlen
    have hrun := enqueue_run vs (queue_init q₀) (by simp [queue_init])
      (by rw [hlen]; simp [queue_init])
    refine ⟨hrun.1, ?_⟩
    have hfull : ((runTrace 1024 (queue_init q₀) (vs.map Op.enq)).2.2.head + 1)
        % 1024 = (runTrace 1024 (queue_init q₀) (vs.map Op.enq)).2.2.tail := by
      rw [hrun.2.2.1, hrun.2.2.2, hlen]
      simp [queue_init]
    rw [enqueue_full_eq _ v hfull]

/-- Witness for C2 at the full state `head = 5`, `tail = 6`. -/
theorem C2_enqueue_full_spec_witness :
    queue_enqueue 1024 ⟨fun _ => 0, 5, 6⟩ 9 = (false, ⟨fun _ => 0, 5, 6⟩) :=
  (C2_enqueue_full_spec ⟨fun _ => 0, 5, 6⟩ 9).2.1 (by decide)

/-- C3: on a well-formed state (both cursors `< N`, as in every reachable
state), dequeue on a non-empty queue returns `slots[tail mod N]` and
advances `tail`, leaving the buffer and `head` unchanged; on an empty
queue (`head = tail`) it returns nothing and changes nothing. -/
theorem C3_dequeue_spec (q : SpscQueue) (hh : q.head < 1024)
    (ht : q.tail < 1024) :
    (q.head ≠ q.tail →
      queue_dequeue 1024 q =
        (some (q.buffer (q.tail % 1024)),
          { q with tail := (q.tail + 1) % 1024 })) ∧
    (q.head = q.tail → queue_dequeue 1024 q = (none, q)) := by
  constructor
  · intro hne
    rw [Nat.mod_eq_of_lt ht]
    exact dequeue_succ_eq q hne
  · exact dequeue_empty_eq q

/-- Witness for C3 at the state `head = 2`, `tail = 1`. -/
theorem C3_dequeue_spec_witness :
    queue_dequeue 1024 ⟨fun _ => 7, 2, 1⟩ =
      (some 7, { buffer := fun _ => 7, head := 2, tail := 2 }) := by
  have h := (C3_dequeue_spec ⟨fun _ => 7, 2, 1⟩ (by decide) (by decide)).1
    (by decide)
  simpa using h

/-- C4: on every reachable state the number of live elements
`(head - tail) mod N` lies in `[0, N-1]`, it equals the length of the
abstract contents, and every further operation preserves the bound. -/
theorem C4_live_element_bound (q : SpscQueue) (h : Reachable 1024 q) :
    queue_len 1024 q ≤ 1024 - 1 ∧
    (queue_contents 1024 q).length = queue_len 1024 q ∧
    ∀ op : Op, queue_len 1024 (step 1024 q op) ≤ 1024 - 1 := by
  have hmod : ∀ r : SpscQueue, queue_len 1024 r ≤ 1024 - 1 := by
    intro r
    unfold queue_len
    have hlt : (r.head + 1024 - r.tail) % 1024 < 1024 :=
      Nat.mod_lt _ (by norm_num)
    omega
  exact ⟨hmod q, by simp [queue_contents], fun op => hmod _⟩

/-- Witness for C4 at the fresh queue. -/
theorem C4_live_element_bound_witness :
    queue_len 1024 (queue_init ⟨fun _ => 0, 0, 0⟩) ≤ 1024 - 1 :=
  (C4_live_element_bound (queue_init ⟨fun _ => 0, 0, 0⟩)
    ⟨⟨fun _ => 0, 0, 0⟩, [], rfl⟩).1

/-- C5 counterexample: `c5state` is reachable with `head = 1023`; the
next enqueue succeeds, yet it stores `head = 0` — the cursor is *not*
advanced by one modulo `2^64` (that would be 1024) and in fact
decreases.  So the stored cursors do not increase monotonically modulo
the word size as the claim states; they wrap at `N = 1024`. -/
theorem C5_counterexample :
    Reachable 1024 c5state ∧
    c5state.head = 1023 ∧
    (queue_enqueue 1024 c5state 5).1 = true ∧
    (queue_enqueue 1024 c5state 5).2.head = 0 ∧
    (queue_enqueue 1024 c5state 5).2.head ≠ (c5state.head + 1) % 2 ^ 64 ∧
    (queue_enqueue 1024 c5state 5).2.head < c5state.head := by
  obtain ⟨hh, ht⟩ := c5state_cursors
  have hne : (c5state.head + 1) % 1024 ≠ c5state.tail := by
    rw [hh, ht]; decide
  have hstep := enqueue_succ_eq c5state 5 hne
  have hhead : (queue_enqueue 1024 c5state 5).2.head = 0 := by
    rw [hstep, hh]
  refine ⟨⟨⟨fun _ => 0, 0, 0⟩, c5ops, rfl⟩, hh, by rw [hstep], hhead, ?_, ?_⟩
  · rw [hhead, hh]; decide
  · rw [hhead, hh]; decide

/-- C5 (amended): every successful enqueue stores
`head := (head + 1) mod N` and leaves `tail` alone; every successful
dequeue stores `tail := (tail + 1) mod N` and leaves `head` alone; on
reachable states both stored cursors lie in `[0, N-1]` and the buffer is
indexed by the stored cursor directly.  The cursors therefore wrap
around at `N`, not at `2^wordsize`. -/
theorem C5_cursor_advance (q : SpscQueue) (v : Int) :
    ((queue_enqueue 1024 q v).1 = true →
      (queue_enqueue 1024 q v).2.head = (q.head + 1) % 1024 ∧
      (queue_enqueue 1024 q v).2.tail = q.tail) ∧
    (∀ x : Int, (queue_dequeue 1024 q).1 = some x →
      (queue_dequeue 1024 q).2.tail = (q.tail + 1) % 1024 ∧
      (queue_dequeue 1024 q).2.head = q.head) ∧
    (Reachable 1024 q → q.head ≤ 1024 - 1 ∧ q.tail ≤ 1024 - 1) := by
  refine ⟨?_, ?_, ?_⟩
  · intro hs
    by_cases h : (q.head + 1) % 1024 = q.tail
    · rw [enqueue_full_eq q v h] at hs
      simp at hs
    · rw [enqueue_succ_eq q v h]
      exact ⟨rfl, rfl⟩
  · intro x hs
    by_cases h : q.head = q.tail
    · rw [dequeue_empty_eq q h] at hs
      simp at hs
    · rw [dequeue_succ_eq q h]
      exact ⟨rfl, rfl⟩
  · intro hr
    have hb := reachable_bounds q hr
    omega

/-- Witness for the amended C5 at the state `head = 4`, `tail = 2`. -/
theorem C5_cursor_advance_witness :
    (queue_enqueue 1024 ⟨fun _ => 0, 4, 2⟩ 9).2.head = (4 + 1) % 1024 ∧
    (queue_enqueue 1024 ⟨fun _ => 0, 4, 2⟩ 9).2.tail = 2 :=
  (C5_cursor_advance ⟨fun _ => 0, 4, 2⟩ 9).1 (by decide)

/-- C6: a fresh queue has both cursors zero and dequeue returns empty;
after exactly `N - 1` successful enqueues the next enqueue fails; after
one subsequent dequeue the next enqueue succeeds again. -/
theorem C6_lifecycle (q₀ : SpscQueue) (v w : Int) (vs : List Int)
    (hlen : vs.length = 1024 - 1) :
    (queue_init q₀).head = 0 ∧ (queue_init q₀).tail = 0 ∧
    queue_dequeue 1024 (queue_init q₀) = (none, queue_init q₀) ∧
    (runTrace 1024 (queue_init q₀) (vs.map Op.enq)).1 = vs ∧
    (queue_enqueue 1024
      (runTrace 1024 (queue_init q₀) (vs.map Op.enq)).2.2 v).1 = false ∧
    (queue_enqueue 1024
      (queue_dequeue 1024
        (runTrace 1024 (queue_init q₀) (vs.map Op.enq)).2.2).2 w).1 = true := by
  have hrun := enqueue_run vs (queue_init q₀) (by simp [queue_init])
    (by rw [hlen]; simp [queue_init])
  have hgen : ∀ X : SpscQueue, X.head = 1023 → X.tail = 0 →
      (queue_enqueue 1024 X v).1 = false ∧
      (queue_enqueue 1024 (queue_dequeue 1024 X).2 w).1 = true := by
    intro X hXh hXt
    have hfull : (X.head + 1) % 1024 = X.tail := by rw [hXh, hXt]
    have hXne : X.head ≠ X.tail := by rw [hXh, hXt]; decide
    refine ⟨by rw [enqueue_full_eq X v hfull], ?_⟩
    rw [dequeue_succ_eq X hXne]
    have hne2 : (({ X with tail := (X.tail + 1) % 1024 } : SpscQueue).head + 1)
        % 1024 ≠ ({ X with tail := (X.tail + 1) % 1024 } : SpscQueue).tail := by
      simp [hXh, hXt]
    rw [enqueue_succ_eq _ w hne2]
  have hX := hgen (runTrace 1024 (queue_init q₀) (vs.map Op.enq)).2.2
    (by rw [hrun.2.2.1, hlen]; simp [queue_init]) hrun.2.2.2
  exact ⟨rfl, rfl, dequeue_empty_eq _ rfl, hrun.1, hX.1, hX.2⟩

/-- Witness for C6 with the 1023 concrete values `0`. -/
theorem C6_lifecycle_witness :
    (List.replicate 1023 (0 : Int)).length = 1024 - 1 ∧
    (runTrace 1024 (queue_init ⟨fun _ => 0, 0, 0⟩)
      ((List.replicate 1023 (0 : Int)).map Op.enq)).1 =
      List.replicate 1023 (0 : Int) :=
  ⟨by rw [List.length_replicate],
   (C6_lifecycle ⟨fun _ => 0, 0, 0⟩ 1 2 (List.replicate 1023 (0 : Int))
     (by rw [List.length_replicate])).2.2.2.1⟩

/-- C7: the spec's concrete capacity-8 scenario, executed step by step:
enqueues of 1..7 succeed, the enqueue of 8 fails (full), a dequeue
returns 1, the retried enqueue of 8 succeeds, and dequeueing until empty
returns 2,...,8 and then nothing — so the overall dequeue sequence is
exactly 1,2,3,4,5,6,7,8. -/
theorem C7_capacity8_scenario :
    runResults 8 (queue_init ⟨fun _ => 0, 0, 0⟩)
      [Op.enq 1, Op.enq 2, Op.enq 3, Op.enq 4, Op.enq 5, Op.enq 6, Op.enq 7,
       Op.enq 8, Op.deq, Op.enq 8,
       Op.deq, Op.deq, Op.deq, Op.deq, Op.deq, Op.deq, Op.deq, Op.deq] =
      [Sum.inl true, Sum.inl true, Sum.inl true, Sum.inl true, Sum.inl true,
       Sum.inl true, Sum.inl true,
       Sum.inl false, Sum.inr (some 1), Sum.inl true,
       Sum.inr (some 2), Sum.inr (some 3), Sum.inr (some 4), Sum.inr (some 5),
       Sum.inr (some 6), Sum.inr (some 7), Sum.inr (some 8), Sum.inr none] := by
  decide

/-- C9: on every reachable state (and for every input value) the
exercise-08 queue operations return the same result and produce the same
successor state as the exercise-07 operations: the `int`-typed local
cursors in `spsc_dequeue` never see values outside `[0, N-1]`, where the
`size_t`/`int` difference is invisible. -/
theorem C9_summary_refines_lockfree (q : SpscQueue) (hq : Reachable 1024 q)
    (v : Int) :
    spsc_enqueue 1024 q v = queue_enqueue 1024 q v ∧
    spsc_dequeue 1024 q = queue_dequeue 1024 q ∧
    (spsc_init q).2 = queue_init q := by
  obtain ⟨hh, ht⟩ := reachable_bounds q hq
  have h32 : ∀ x : Nat, x < 1024 → toInt32 x = (x : Int) := by
    intro x hx
    unfold toInt32
    rw [Nat.mod_eq_of_lt (by omega), if_pos (by omega)]
  refine ⟨rfl, ?_, rfl⟩
  unfold spsc_dequeue queue_dequeue
  rw [h32 q.tail ht, h32 q.head hh]
  by_cases h : q.head = q.tail
  · simp [h]
  · have hcast : ((q.head : Int) = (q.tail : Int)) = (q.head = q.tail) := by
      simp
    simp only [hcast, if_neg h]
    have h1 : ((q.tail : Int) + 1).toNat = q.tail + 1 := by
      omega
    rw [h1]
    simp

/-- Witness for C9 at the freshly initialised queue. -/
theorem C9_summary_refines_lockfree_witness :
    spsc_dequeue 1024 (queue_init ⟨fun _ => 0, 0, 0⟩) =
      queue_dequeue 1024 (queue_init ⟨fun _ => 0, 0, 0⟩) :=
  (C9_summary_refines_lockfree (queue_init ⟨fun _ => 0, 0, 0⟩)
    ⟨⟨fun _ => 0, 0, 0⟩, [], rfl⟩ 0).2.1

/-- C10: every reachable state keeps both stored cursors inside
`[0, QUEUE_SIZE - 1]`, so the accesses `buffer[head]` in enqueue and
`buffer[tail]` in dequeue stay within the `QUEUE_SIZE`-element array. -/
theorem C10_cursor_inbounds (q : SpscQueue) (h : Reachable 1024 q) :
    q.head < QUEUE_SIZE ∧ q.tail < QUEUE_SIZE :=
  reachable_bounds q h

/-- Witness for C10 at the freshly initialised queue. -/
theorem C10_cursor_inbounds_witness :
    (queue_init ⟨fun _ => 0, 0, 0⟩).head < QUEUE_SIZE ∧
    (queue_init ⟨fun _ => 0, 0, 0⟩).tail < QUEUE_SIZE :=
  C10_cursor_inbounds (queue_init ⟨fun _ => 0, 0, 0⟩)
    ⟨⟨fun _ => 0, 0, 0⟩, [], rfl⟩
